import Mathlib

/-!
Verification of the hubsync image-mirroring tool's name-resolution and
execution engine.  Go code is shallowly embedded: Go strings become lists
of characters, the docker engine client becomes a behaviour record of
boolean-valued functions, and the two execution strategies become
executable functions (the parallel one is driven by an explicit event
schedule over a worker-pool state machine).
-/

namespace HubSync

/-- A Go string, embedded as its list of characters. -/
abbrev GoStr := List Char

/-- Go `strings.Contains(s, string(c))` for a single-character substring. -/
def goContainsChar (s : GoStr) (c : Char) : Bool := s.contains c

/-- Go `strings.Contains(s, sub)` for an arbitrary substring. -/
def goContainsSub (s sub : GoStr) : Bool :=
  match s with
  | [] => sub.isEmpty
  | _ :: xs => sub.isPrefixOf s || goContainsSub xs sub

/-- Go `strings.HasPrefix(s, pre)`. -/
def goStartsWith (s pre : GoStr) : Bool := pre.isPrefixOf s

/-- Go `strings.Split(s, string(c))` for a single-character separator:
splits at every occurrence of `c`; the result always has
`s.count c + 1` parts. -/
def goSplit (c : Char) : GoStr → List GoStr
  | [] => [[]]
  | x :: xs =>
    if x = c then [] :: goSplit c xs
    else
      match goSplit c xs with
      | [] => [[x]]
      | y :: ys => (x :: y) :: ys

/-- `ImageReference` from `pkg/docker/models.go` (the fields the sync core
reads: `FullName`, `Repository`, `Name`, `Tag`; `Registry`/`Digest` are
never set by the code under study and are omitted). -/
structure ImageReference where
  fullName : GoStr
  repository : GoStr
  name : GoStr
  tag : GoStr
  deriving Repr, DecidableEq

/-- The two configuration fields `generateImageReferences` reads
(`config.Repository` and `config.Namespace`). -/
structure NamingConfig where
  repository : GoStr
  nspace : GoStr
  deriving Repr, DecidableEq

/-- The tag-extraction pattern of `syncer_v2.go` (`sourceTag`/`targetTag`):
split on ":", take part 1 if present, else "latest". -/
def tagOf (full : GoStr) : GoStr :=
  let parts := goSplit ':' full
  if parts.length > 1 then parts.getD 1 [] else "latest".toList

/-- The name-extraction pattern of `syncer_v2.go` (`sourceImage` and
`targetImage`): part 0 of the ":"-split. -/
def nameOf (full : GoStr) : GoStr := (goSplit ':' full).headD []

/-- Construction of an `ImageReference` from a full name, as done for both
`sourceRef` and `targetRef` in `generateImageReferences`
(`syncer_v2.go:220-296`): the name is everything before the first ':' and
the tag the part between the first and second ':' (defaulting to
"latest"). -/
def refFromFullName (repo full : GoStr) : ImageReference :=
  { fullName := full, repository := repo, name := nameOf full, tag := tagOf full }

/-- Tag normalisation step of `generateImageReferences`
(`syncer_v2.go:216-218`): append ":latest" when the string has no ':'. -/
def normalizeTag (image : GoStr) : GoStr :=
  if goContainsChar image ':' then image else image ++ ":latest".toList

/-- Target qualification step of `generateImageReferences`
(`syncer_v2.go:256-277`): with no repository configured, prefix with
`namespace/` after stripping any path (unless already prefixed); with a
repository configured, always strip the path and prefix with
`repository/namespace/`. -/
def qualifyTarget (cfg : NamingConfig) (targetBase : GoStr) : GoStr :=
  if cfg.repository = [] then
    if goStartsWith targetBase (cfg.nspace ++ ['/']) then targetBase
    else
      let imageName :=
        if goContainsChar targetBase '/' then (goSplit '/' targetBase).getLastD []
        else targetBase
      cfg.nspace ++ '/' :: imageName
  else
    let imageName :=
      if goContainsChar targetBase '/' then (goSplit '/' targetBase).getLastD []
      else targetBase
    cfg.repository ++ '/' :: cfg.nspace ++ '/' :: imageName

/-- `SyncerV2.generateImageReferences` (`syncer_v2.go:198-296`); the same
name-generation algorithm appears as `Syncer.generateTargetName` in
`pkg/sync/syncer.go`, which returns exactly the two full names. -/
def generateImageReferences (cfg : NamingConfig) (image0 : GoStr) :
    ImageReference × ImageReference :=
  let hasCustomPattern := goContainsChar image0 '$'
  let image1 := if hasCustomPattern then (goSplit '$' image0).headD [] else image0
  let customName := if hasCustomPattern then (goSplit '$' image0).getD 1 [] else []
  let image2 := normalizeTag image1
  let sourceTag := tagOf image2
  let sourceRef := refFromFullName [] image2
  let isTaggedWithVersion := goContainsSub image0 (':' :: ['v']) && hasCustomPattern
  let targetBase :=
    if hasCustomPattern ∧ customName ≠ [] then
      if goContainsChar customName ':' then customName else customName ++ ':' :: sourceTag
    else if isTaggedWithVersion then image2
    else image2
  let targetFullName := qualifyTarget cfg targetBase
  (sourceRef, refFromFullName cfg.repository targetFullName)

/-- Rejoining the parts of `goSplit` with the separator. -/
def joinSep (c : Char) : List GoStr → GoStr
  | [] => []
  | [a] => a
  | a :: b :: rest => a ++ c :: joinSep c (b :: rest)

theorem goSplit_ne_nil (c : Char) (s : GoStr) : goSplit c s ≠ [] := by
  induction s with
  | nil => simp [goSplit]
  | cons x xs ih =>
    simp only [goSplit]
    split
    · simp
    · cases h : goSplit c xs with
      | nil => simp
      | cons y ys => simp

theorem goSplit_join (c : Char) (s : GoStr) : joinSep c (goSplit c s) = s := by
  induction s with
  | nil => simp [goSplit, joinSep]
  | cons x xs ih =>
    simp only [goSplit]
    split
    · rename_i hx
      cases h : goSplit c xs with
      | nil => exact absurd h (goSplit_ne_nil c xs)
      | cons y ys =>
        rw [h] at ih
        simp [joinSep, ih, hx]
    · cases h : goSplit c xs with
      | nil => exact absurd h (goSplit_ne_nil c xs)
      | cons y ys =>
        rw [h] at ih
        cases ys with
        | nil => simp [joinSep] at ih ⊢; exact ih
        | cons z zs => simp [joinSep] at ih ⊢; simp [ih]

theorem goSplit_length (c : Char) (s : GoStr) :
    (goSplit c s).length = s.count c + 1 := by
  induction s with
  | nil => simp [goSplit]
  | cons x xs ih =>
    simp only [goSplit]
    split
    · rename_i hx
      simp [List.count_cons, hx, ih]
    · rename_i hx
      cases h : goSplit c xs with
      | nil => exact absurd h (goSplit_ne_nil c xs)
      | cons y ys =>
        rw [h] at ih
        simp at ih
        simp [List.count_cons, hx, ih]

theorem goContainsChar_ne_nil {s : GoStr} {c : Char}
    (h : goContainsChar s c = true) : s ≠ [] := by
  cases s with
  | nil => simp [goContainsChar] at h
  | cons x xs => simp

theorem goStartsWith_ne_nil {s pre : GoStr}
    (h : goStartsWith s pre = true) (hp : pre ≠ []) : s ≠ [] := by
  cases s with
  | nil =>
    cases pre with
    | nil => exact absurd rfl hp
    | cons p ps => simp [goStartsWith, List.isPrefixOf] at h
  | cons x xs => simp

theorem normalizeTag_ne_nil (s : GoStr) : normalizeTag s ≠ [] := by
  unfold normalizeTag
  split
  · rename_i h
    exact goContainsChar_ne_nil h
  · intro hcon
    have hlen := congrArg List.length hcon
    have h7 : (":latest".toList).length = 7 := rfl
    simp [h7] at hlen

theorem qualifyTarget_ne_nil (cfg : NamingConfig) (tb : GoStr) :
    qualifyTarget cfg tb ≠ [] := by
  unfold qualifyTarget
  split
  · split
    · rename_i h
      exact goStartsWith_ne_nil h (by simp)
    · simp
  · simp

/-- When a full name has exactly one ':', it splits into exactly the
name and the tag extracted by `refFromFullName`, and is recovered as
`name ++ ":" ++ tag`. -/
theorem refFromFullName_reconstruct (repo full : GoStr) (h : full.count ':' = 1) :
    (refFromFullName repo full).fullName =
      (refFromFullName repo full).name ++ ':' :: (refFromFullName repo full).tag := by
  have hlen : (goSplit ':' full).length = 2 := by rw [goSplit_length, h]
  have hj := goSplit_join ':' full
  rcases hsp : goSplit ':' full with _ | ⟨a, _ | ⟨b, rest⟩⟩
  · rw [hsp] at hlen; simp at hlen
  · rw [hsp] at hlen; simp at hlen
  · rw [hsp] at hlen hj
    have hrest : rest = [] := by
      simp [List.length_cons] at hlen
      exact hlen
    subst hrest
    simp only [joinSep] at hj
    simp [refFromFullName, nameOf, tagOf, hsp]
    exact hj.symm

example :
    (generateImageReferences ⟨[], "yugasun".toList⟩ "yugasun/alpine$alpine".toList).1.fullName
      = "yugasun/alpine:latest".toList := by decide

example :
    (generateImageReferences ⟨[], "yugasun".toList⟩ "yugasun/alpine$alpine".toList).2.fullName
      = "yugasun/alpine:latest".toList := by decide

example :
    (generateImageReferences ⟨"registry.example.com".toList, "yugasun".toList⟩ "nginx:1.19".toList).2.fullName
      = "registry.example.com/yugasun/nginx:1.19".toList := by decide

example :
    (generateImageReferences ⟨[], "yugasun".toList⟩ "yugasun/alpine:v1$alpine".toList).2.fullName
      = "yugasun/alpine:v1".toList := by decide

/-- C1 (counterexample): for namespace "yugasun" and empty repository, the
input "yugasun/alpine$alpine" does NOT yield target full name
"yugasun/yugasun.alpine:latest": the custom name after '$' is used
directly (the implementation never rewrites '/' to '.'). -/
theorem custom_name_target_not_dotted :
    (generateImageReferences ⟨[], "yugasun".toList⟩ "yugasun/alpine$alpine".toList).2.fullName
      ≠ "yugasun/yugasun.alpine:latest".toList := by decide

/-- C1 (amended): for namespace "yugasun" and empty repository, the input
"yugasun/alpine$alpine" yields source full name "yugasun/alpine:latest"
and target full name "yugasun/alpine:latest" (the custom name "alpine"
gets the source tag appended and is then prefixed with "yugasun/"). -/
theorem custom_name_target_values :
    (generateImageReferences ⟨[], "yugasun".toList⟩ "yugasun/alpine$alpine".toList).1.fullName
        = "yugasun/alpine:latest".toList
    ∧ (generateImageReferences ⟨[], "yugasun".toList⟩ "yugasun/alpine$alpine".toList).2.fullName
        = "yugasun/alpine:latest".toList :=
  ⟨by decide, by decide⟩

/-- C3 (counterexample): with repository "r" and namespace "n", input
"nginx" yields a target reference with full name "r/n/nginx:latest",
repository "r", name "r/n/nginx" and tag "latest"; prepending
`repository ++ "/"` to `name ++ ":" ++ tag` as the claim demands gives
"r/r/n/nginx:latest", which differs from the full name (the name field
already carries the repository prefix). -/
theorem reconstruction_with_repository_fails :
    ¬ ((generateImageReferences ⟨"r".toList, "n".toList⟩ "nginx".toList).2.fullName
        = (generateImageReferences ⟨"r".toList, "n".toList⟩ "nginx".toList).2.repository
            ++ '/' :: ((generateImageReferences ⟨"r".toList, "n".toList⟩ "nginx".toList).2.name
            ++ ':' :: (generateImageReferences ⟨"r".toList, "n".toList⟩ "nginx".toList).2.tag)) := by
  decide

/-- C3 (amended): for every raw input string and every
(repository, namespace) configuration, both references returned by
`generateImageReferences` have a non-empty full name, and whenever a
reference's full name contains exactly one ':', the full name equals
`name ++ ":" ++ tag` with no repository prefix prepended (the name field
already carries any repository/path prefix); the ':' used as tag
separator is the first (equivalently, with exactly one occurrence, the
last) one. -/
theorem image_reference_invariant (cfg : NamingConfig) (raw : GoStr) :
    (generateImageReferences cfg raw).1.fullName ≠ []
    ∧ (generateImageReferences cfg raw).2.fullName ≠ []
    ∧ ((generateImageReferences cfg raw).1.fullName.count ':' = 1 →
        (generateImageReferences cfg raw).1.fullName =
          (generateImageReferences cfg raw).1.name
            ++ ':' :: (generateImageReferences cfg raw).1.tag)
    ∧ ((generateImageReferences cfg raw).2.fullName.count ':' = 1 →
        (generateImageReferences cfg raw).2.fullName =
          (generateImageReferences cfg raw).2.name
            ++ ':' :: (generateImageReferences cfg raw).2.tag) := by
  unfold generateImageReferences
  refine ⟨?_, ?_, ?_, ?_⟩
  · exact normalizeTag_ne_nil _
  · exact qualifyTarget_ne_nil _ _
  · exact refFromFullName_reconstruct _ _
  · exact refFromFullName_reconstruct _ _

/-- C3 (witness): the amended invariant applied at repository "",
namespace "ns" and input "nginx", whose source full name
"nginx:latest" contains exactly one ':'. -/
theorem image_reference_invariant_witness :
    (generateImageReferences ⟨[], "ns".toList⟩ "nginx".toList).1.fullName =
      (generateImageReferences ⟨[], "ns".toList⟩ "nginx".toList).1.name
        ++ ':' :: (generateImageReferences ⟨[], "ns".toList⟩ "nginx".toList).1.tag :=
  (image_reference_invariant ⟨[], "ns".toList⟩ "nginx".toList).2.2.1 (by decide)

/-- One call made to the docker engine client by a strategy
(`ClientInterface` in `pkg/docker`): used to observe which engine
operations an execution performs. -/
inductive EngineCall
  | pull (image : GoStr)
  | tagCall (source target : GoStr)
  | push (image : GoStr)
  deriving Repr, DecidableEq

/-- Abstract behaviour of the docker engine client as observed by the
strategies: whether each pull/tag/push call succeeds (`true`) or returns
an error (`false`). -/
structure ClientBehavior where
  pullOk : GoStr → Bool
  tagOk : GoStr → GoStr → Bool
  pushOk : GoStr → Bool

/-- `strategies.SyncOperation` (`pkg/sync/strategies/interface.go`). -/
structure SyncOperation where
  source : ImageReference
  target : ImageReference
  validateDst : Bool
  force : Bool
  dryRun : Bool
  deriving Repr, DecidableEq

/-- The step at which a single operation failed, as recorded by
`executeSingleOperation`'s `NewOperationError` messages. -/
inductive OpError
  | pullFailed
  | tagFailed
  | pushFailed
  deriving Repr, DecidableEq

/-- `strategies.SyncResult`, restricted to the fields the claims are
about (`Operation`, `Success`, `Error`); timing fields and detailed log
lines are real-time/presentation data and are not modelled. -/
structure SyncResult where
  operation : SyncOperation
  success : Bool
  error : Option OpError
  deriving Repr, DecidableEq

/-- `StandardStrategy.executeSingleOperation`
(`syncer_v2.go`, `StandardStrategy` section): dry-run short-circuits with
success; otherwise pull, tag, push in order, stopping at the first
failing step and recording which step failed.  Also returns the list of
engine calls made.  `ParallelStrategy.executeSingleOperation` performs
the same call sequence (its error messages additionally carry the worker
id, which does not affect which step failed). -/
def executeSingleOperation (client : ClientBehavior) (op : SyncOperation) :
    SyncResult × List EngineCall :=
  if op.dryRun then
    ({ operation := op, success := true, error := none }, [])
  else if !client.pullOk op.source.fullName then
    ({ operation := op, success := false, error := some .pullFailed },
      [.pull op.source.fullName])
  else if !client.tagOk op.source.fullName op.target.fullName then
    ({ operation := op, success := false, error := some .tagFailed },
      [.pull op.source.fullName, .tagCall op.source.fullName op.target.fullName])
  else if !client.pushOk op.target.fullName then
    ({ operation := op, success := false, error := some .pushFailed },
      [.pull op.source.fullName, .tagCall op.source.fullName op.target.fullName,
        .push op.target.fullName])
  else
    ({ operation := op, success := true, error := none },
      [.pull op.source.fullName, .tagCall op.source.fullName op.target.fullName,
        .push op.target.fullName])

/-- Strategy-level error: the only one either strategy returns is the
context-cancellation error (`errors.NewContextError`). -/
inductive StrategyError
  | contextCancelled
  deriving Repr, DecidableEq

/-- What a strategy's `Execute` produces: the result list, the returned
error, and (for instrumentation) every engine call made. -/
structure ExecOutcome where
  results : List SyncResult
  error : Option StrategyError
  calls : List EngineCall
  deriving Repr, DecidableEq

/-- `StandardStrategy.Execute` (`syncer_v2.go`): iterate the operations
in order; before each one, check the context (modelled by
`cancelFrom`: `some k` means `ctx.Err()` becomes non-nil at the k-th
check and stays so); on cancellation return the results so far with a
context error, otherwise execute the operation synchronously and
continue regardless of its success. -/
def standardExecute (client : ClientBehavior) :
    Option Nat → List SyncOperation → ExecOutcome
  | _, [] => { results := [], error := none, calls := [] }
  | some 0, _ :: _ =>
    { results := [], error := some .contextCancelled, calls := [] }
  | none, op :: rest =>
    let rc := executeSingleOperation client op
    let tail := standardExecute client none rest
    { results := rc.1 :: tail.results, error := tail.error,
      calls := rc.2 ++ tail.calls }
  | some (k + 1), op :: rest =>
    let rc := executeSingleOperation client op
    let tail := standardExecute client (some k) rest
    { results := rc.1 :: tail.results, error := tail.error,
      calls := rc.2 ++ tail.calls }

theorem standardExecute_none (client : ClientBehavior) (ops : List SyncOperation) :
    (standardExecute client none ops).results
        = ops.map (fun op => (executeSingleOperation client op).1)
      ∧ (standardExecute client none ops).error = none := by
  induction ops with
  | nil => exact ⟨rfl, rfl⟩
  | cons op rest ih => simp [standardExecute, ih.1, ih.2]

theorem standardExecute_cancelled (client : ClientBehavior) :
    ∀ (ops : List SyncOperation) (k : Nat), k < ops.length →
      (standardExecute client (some k) ops).results
          = (ops.take k).map (fun op => (executeSingleOperation client op).1)
        ∧ (standardExecute client (some k) ops).error = some .contextCancelled := by
  intro ops
  induction ops with
  | nil => intro k hk; simp at hk
  | cons op rest ih =>
    intro k hk
    cases k with
    | zero => exact ⟨rfl, rfl⟩
    | succ k =>
      have hk' : k < rest.length := by simpa using hk
      have h := ih k hk'
      simp [standardExecute, h.1, h.2]

/-- C8: the standard strategy yields exactly one result per operation in
input order when the context is never cancelled (an individual failure
never stops the iteration, and no strategy-level error is returned);
when the context is cancelled before the k-th of the ops (k <
number of operations), it returns exactly the results of the first k
operations together with a context-cancellation error. -/
theorem standard_strategy_spec (client : ClientBehavior) (ops : List SyncOperation) :
    ((standardExecute client none ops).results
        = ops.map (fun op => (executeSingleOperation client op).1)
      ∧ (standardExecute client none ops).error = none)
    ∧ ∀ k, k < ops.length →
        (standardExecute client (some k) ops).results
            = (ops.take k).map (fun op => (executeSingleOperation client op).1)
          ∧ (standardExecute client (some k) ops).error = some .contextCancelled :=
  ⟨standardExecute_none client ops, standardExecute_cancelled client ops⟩

/-- C8 (witness): the cancellation clause of `standard_strategy_spec`
instantiated at two concrete operations with the context cancelled at
the second check. -/
theorem standard_strategy_spec_witness :
    (standardExecute
        ⟨fun _ => true, fun _ _ => true, fun _ => true⟩
        (some 1)
        [ { source := refFromFullName [] "a:1".toList,
            target := refFromFullName [] "b:1".toList,
            validateDst := true, force := false, dryRun := false },
          { source := refFromFullName [] "c:1".toList,
            target := refFromFullName [] "d:1".toList,
            validateDst := true, force := false, dryRun := false } ]).error
      = some .contextCancelled :=
  ((standard_strategy_spec
      ⟨fun _ => true, fun _ _ => true, fun _ => true⟩
      [ { source := refFromFullName [] "a:1".toList,
          target := refFromFullName [] "b:1".toList,
          validateDst := true, force := false, dryRun := false },
        { source := refFromFullName [] "c:1".toList,
          target := refFromFullName [] "d:1".toList,
          validateDst := true, force := false, dryRun := false } ]).2
    1 (by decide)).2

/-- State of `ParallelStrategy.Execute`'s worker pool
(`pkg/sync/strategies`, parallel section): operations not yet taken from
the job channel, the jobs currently held by workers, the results
collected so far (in completion order), and the engine calls made. -/
structure PoolState where
  pending : List SyncOperation
  busy : List (Nat × SyncOperation)
  results : List SyncResult
  calls : List EngineCall
  deriving Repr, DecidableEq

/-- One scheduling event of the worker pool: a worker dequeues the next
job from the job channel, or a worker finishes the job it holds. -/
inductive PoolEvent
  | take (w : Nat)
  | finish (w : Nat)
  deriving Repr, DecidableEq

/-- The job currently held by worker `w`, if any. -/
def lookupWorker (busy : List (Nat × SyncOperation)) (w : Nat) : Option SyncOperation :=
  (busy.find? (fun p => p.1 == w)).map Prod.snd

/-- Remove worker `w`'s entry from the busy list. -/
def removeWorker (busy : List (Nat × SyncOperation)) (w : Nat) :
    List (Nat × SyncOperation) :=
  busy.eraseP (fun p => p.1 == w)

/-- One step of the worker pool.  A `take` succeeds only for an idle
worker with index below the concurrency bound when jobs remain (jobs are
handed out in input order, as by the buffered job channel); a `finish`
completes the held job exactly as `executeSingleOperation` does and
appends its result to the collected results. -/
def poolStep (client : ClientBehavior) (conc : Nat) (s : PoolState) :
    PoolEvent → PoolState
  | .take w =>
    match s.pending, lookupWorker s.busy w with
    | op :: rest, none =>
      if w < conc then
        { s with pending := rest, busy := (w, op) :: s.busy }
      else s
    | _, _ => s
  | .finish w =>
    match lookupWorker s.busy w with
    | some op =>
      let rc := executeSingleOperation client op
      { s with busy := removeWorker s.busy w,
               results := s.results ++ [rc.1], calls := s.calls ++ rc.2 }
    | none => s

/-- Run the worker pool from the initial state over a schedule of
events. -/
def poolRun (client : ClientBehavior) (conc : Nat) (ops : List SyncOperation)
    (sched : List PoolEvent) : PoolState :=
  sched.foldl (poolStep client conc) { pending := ops, busy := [], results := [], calls := [] }

/-- `NewParallelStrategy`'s concurrency normalisation: default to 4 when
the configured concurrency is not positive. -/
def normConc (concurrency : Int) : Nat :=
  (if concurrency ≤ 0 then 4 else concurrency).toNat

/-- `ParallelStrategy.Execute`: run the pool over a schedule; after
collection, return a context error exactly when the run's context is in
an error state, and no error otherwise, regardless of individual
failures. -/
def parallelExecute (client : ClientBehavior) (concurrency : Int) (cancelled : Bool)
    (ops : List SyncOperation) (sched : List PoolEvent) : ExecOutcome :=
  let final := poolRun client (normConc concurrency) ops sched
  { results := final.results,
    error := if cancelled then some .contextCancelled else none,
    calls := final.calls }

/-- All operations accounted for by a pool state: still pending, held by
a worker, or already recorded in a result. -/
def opsOf (s : PoolState) : List SyncOperation :=
  s.pending ++ s.busy.map Prod.snd ++ s.results.map SyncResult.operation

theorem executeSingleOperation_operation (client : ClientBehavior) (op : SyncOperation) :
    (executeSingleOperation client op).1.operation = op := by
  unfold executeSingleOperation
  split
  · rfl
  · split
    · rfl
    · split
      · rfl
      · split <;> rfl

theorem lookupWorker_perm (w : Nat) (op : SyncOperation) :
    ∀ busy : List (Nat × SyncOperation), lookupWorker busy w = some op →
      (busy.map Prod.snd).Perm (op :: (removeWorker busy w).map Prod.snd) := by
  intro busy
  induction busy with
  | nil => intro h; simp [lookupWorker] at h
  | cons p rest ih =>
    intro h
    by_cases hw : (p.1 == w) = true
    · have hop : p.2 = op := by
        simp [lookupWorker, List.find?_cons, hw] at h
        exact h
      have herase : removeWorker (p :: rest) w = rest := by
        simp [removeWorker, List.eraseP_cons, hw]
      rw [herase, List.map_cons, hop]
    · have hw' : (p.1 == w) = false := by simpa using hw
      have h' : lookupWorker rest w = some op := by
        simpa [lookupWorker, List.find?_cons, hw'] using h
      have herase : removeWorker (p :: rest) w = p :: removeWorker rest w := by
        simp [removeWorker, List.eraseP_cons, hw']
      rw [herase, List.map_cons, List.map_cons]
      exact ((ih h').cons p.2).trans (List.Perm.swap op p.2 _)

theorem poolStep_perm (client : ClientBehavior) (conc : Nat) (s : PoolState)
    (e : PoolEvent) : (opsOf (poolStep client conc s e)).Perm (opsOf s) := by
  cases e with
  | take w =>
    simp only [poolStep]
    cases hp : s.pending with
    | nil => exact List.Perm.refl _
    | cons op rest =>
      cases hl : lookupWorker s.busy w with
      | some op' => exact List.Perm.refl _
      | none =>
        simp only []
        by_cases hw : w < conc
        · rw [if_pos hw]
          simp only [opsOf, hp, List.map_cons, List.cons_append, List.append_assoc]
          exact List.perm_middle.trans (List.Perm.refl _)
        · rw [if_neg hw]
  | finish w =>
    simp only [poolStep]
    cases hl : lookupWorker s.busy w with
    | none => exact List.Perm.refl _
    | some op =>
      simp only []
      have hbusy := lookupWorker_perm w op s.busy hl
      simp only [opsOf, List.map_append, List.map_cons, List.map_nil,
        executeSingleOperation_operation, List.append_assoc]
      refine List.Perm.append_left s.pending ?_
      have h1 : (s.results.map SyncResult.operation ++ [op]).Perm
          (op :: s.results.map SyncResult.operation) :=
        List.perm_append_singleton op (s.results.map SyncResult.operation)
      have h2 : ((removeWorker s.busy w).map Prod.snd
            ++ (s.results.map SyncResult.operation ++ [op])).Perm
          ((removeWorker s.busy w).map Prod.snd
            ++ op :: s.results.map SyncResult.operation) :=
        List.Perm.append_left _ h1
      have h3 : ((removeWorker s.busy w).map Prod.snd
            ++ op :: s.results.map SyncResult.operation).Perm
          (op :: ((removeWorker s.busy w).map Prod.snd
            ++ s.results.map SyncResult.operation)) :=
        List.perm_middle
      have h4 : (op :: ((removeWorker s.busy w).map Prod.snd
            ++ s.results.map SyncResult.operation)).Perm
          (s.busy.map Prod.snd ++ s.results.map SyncResult.operation) := by
        have := List.Perm.append_right (s.results.map SyncResult.operation) hbusy.symm
        simpa using this
      exact (h2.trans h3).trans h4

theorem poolFold_perm (client : ClientBehavior) (conc : Nat) :
    ∀ (sched : List PoolEvent) (s : PoolState),
      (opsOf (sched.foldl (poolStep client conc) s)).Perm (opsOf s) := by
  intro sched
  induction sched with
  | nil => intro s; exact List.Perm.refl _
  | cons e es ih =>
    intro s
    exact (ih (poolStep client conc s e)).trans (poolStep_perm client conc s e)

theorem poolRun_perm (client : ClientBehavior) (conc : Nat) (ops : List SyncOperation)
    (sched : List PoolEvent) : (opsOf (poolRun client conc ops sched)).Perm ops := by
  have h := poolFold_perm client conc sched
    { pending := ops, busy := [], results := [], calls := [] }
  simpa [poolRun, opsOf] using h

/-- C7: for every operation list, concurrency setting and complete
schedule of the parallel strategy's worker pool (all jobs taken and
finished — which is how `Execute` terminates, since it drains the result
channel until every worker exits), under a never-cancelled context the
collected results contain exactly one result for every submitted
operation (their operations are a permutation of the input, so none is
lost or duplicated), and the returned error is nil even if individual
operations failed. -/
theorem parallel_strategy_complete (client : ClientBehavior) (concurrency : Int)
    (ops : List SyncOperation) (sched : List PoolEvent)
    (hp : (poolRun client (normConc concurrency) ops sched).pending = [])
    (hb : (poolRun client (normConc concurrency) ops sched).busy = []) :
    ((parallelExecute client concurrency false ops sched).results.map
        SyncResult.operation).Perm ops
    ∧ (parallelExecute client concurrency false ops sched).results.length = ops.length
    ∧ (parallelExecute client concurrency false ops sched).error = none := by
  have h := poolRun_perm client (normConc concurrency) ops sched
  rw [opsOf, hp, hb] at h
  simp only [List.map_nil, List.nil_append] at h
  refine ⟨h, ?_, rfl⟩
  have hlen := h.length_eq
  simpa using hlen

/-- C7 (witness): a one-operation batch with concurrency 2 and the
schedule in which worker 0 takes and finishes the single job. -/
theorem parallel_strategy_complete_witness :
    ((parallelExecute ⟨fun _ => true, fun _ _ => true, fun _ => true⟩ 2 false
        [ { source := refFromFullName [] "a:1".toList,
            target := refFromFullName [] "b:1".toList,
            validateDst := true, force := false, dryRun := false } ]
        [.take 0, .finish 0]).results.map SyncResult.operation).Perm
      [ { source := refFromFullName [] "a:1".toList,
          target := refFromFullName [] "b:1".toList,
          validateDst := true, force := false, dryRun := false } ] :=
  (parallel_strategy_complete ⟨fun _ => true, fun _ _ => true, fun _ => true⟩ 2
    [ { source := refFromFullName [] "a:1".toList,
        target := refFromFullName [] "b:1".toList,
        validateDst := true, force := false, dryRun := false } ]
    [.take 0, .finish 0] (by decide) (by decide)).1

/-- The configuration fields `SyncerV2` reads (`internal/config.Config`:
`Repository`, `Namespace`, `MaxContent`, `Concurrency`, `Force`,
`DryRun`). -/
structure SyncerConfig where
  repository : GoStr
  nspace : GoStr
  maxContent : Nat
  concurrency : Int
  force : Bool
  dryRun : Bool

/-- The two kinds of error `SyncerV2.Run` can return:
`errors.NewConfigError("sync", "failed to parse content", err)` and
`errors.NewOperationError("sync", "failed to generate output file", err)`. -/
inductive RunError
  | configError
  | operationError
  deriving Repr, DecidableEq

/-- `SyncerV2.parseContent` (`syncer_v2.go:151-166`).  JSON decoding is
external; `decoded` is `none` when `json.Unmarshal` fails and
`some content` otherwise.  A decoded list longer than `MaxContent` is an
error. -/
def parseContentV2 (decoded : Option (List GoStr)) (maxContent : Nat) :
    Except Unit (List GoStr) :=
  match decoded with
  | none => .error ()
  | some content =>
    if content.length > maxContent then .error () else .ok content

/-- `SyncerV2.createSyncOperations` (`syncer_v2.go:169-195`): empty image
names are skipped (counted in the second component, as the code counts
them in `statistics.Skipped`); every other name is turned into an
operation, in input order. -/
def createSyncOperations (cfg : SyncerConfig) : List GoStr → List SyncOperation × Nat
  | [] => ([], 0)
  | img :: rest =>
    let tail := createSyncOperations cfg rest
    if img = [] then (tail.1, tail.2 + 1)
    else
      let refs := generateImageReferences ⟨cfg.repository, cfg.nspace⟩ img
      ({ source := refs.1, target := refs.2, validateDst := !cfg.force,
         force := cfg.force, dryRun := cfg.dryRun } :: tail.1, tail.2)

/-- `SyncStatisticsV2` (`syncer_v2.go:23-30`); durations are int64
nanosecond counts. -/
structure SyncStats where
  totalImages : Nat
  successful : Nat
  failed : Nat
  skipped : Nat
  totalDuration : Int
  averageDuration : Int
  deriving Repr, DecidableEq

/-- `SyncerV2.calculateStatistics` (`syncer_v2.go:299-317`): count
successes and failures from the result list; `AverageDuration` is
computed as `TotalDuration / Successful` (Go int64 division, i.e.
truncated) only when `Successful > 0` and otherwise keeps its zero
value.  `Skipped` was already counted by `createSyncOperations`. -/
def calculateStatisticsV2 (totalImages skipped : Nat) (results : List SyncResult)
    (totalDuration : Int) : SyncStats :=
  let succ := (results.filter (fun r => r.success)).length
  let fail := (results.filter (fun r => !r.success)).length
  { totalImages := totalImages, successful := succ, failed := fail,
    skipped := skipped, totalDuration := totalDuration,
    averageDuration :=
      if 0 < succ then Int.tdiv totalDuration (Int.ofNat succ) else 0 }

/-- Failure cases of `SyncerV2.generateOutput` (`syncer_v2.go:320-389`):
the guard `len(s.results) == 0` returns "no sync results available";
template parsing, file creation and template execution are external
writes, modelled by the `writeOk` flag. -/
inductive OutputError
  | noSyncResults
  | writeFailed
  deriving Repr, DecidableEq

/-- `SyncerV2.generateOutput`, reduced to its control flow: fail when the
result list is empty, otherwise succeed iff writing the rendered output
file succeeds. -/
def generateOutputV2 (results : List SyncResult) (writeOk : Bool) :
    Except OutputError Unit :=
  if results.length = 0 then .error .noSyncResults
  else if writeOk then .ok () else .error .writeFailed

/-- Strategy selection in `SyncerV2.Run` (`syncer_v2.go:106-112`):
parallel when `Concurrency > 1`, standard otherwise. -/
def chooseExecute (cfg : SyncerConfig) (client : ClientBehavior)
    (cancelFrom : Option Nat) (cancelled : Bool) (sched : List PoolEvent)
    (ops : List SyncOperation) : ExecOutcome :=
  if cfg.concurrency > 1 then parallelExecute client cfg.concurrency cancelled ops sched
  else standardExecute client cancelFrom ops

instance {ε α : Type} [DecidableEq ε] [DecidableEq α] : DecidableEq (Except ε α) := fun x y =>
  match x, y with
  | .error a, .error b =>
    if h : a = b then .isTrue (congrArg Except.error h)
    else .isFalse (fun hc => h (Except.error.inj hc))
  | .error _, .ok _ => .isFalse (fun hc => Except.noConfusion hc)
  | .ok _, .error _ => .isFalse (fun hc => Except.noConfusion hc)
  | .ok a, .ok b =>
    if h : a = b then .isTrue (congrArg Except.ok h)
    else .isFalse (fun hc => h (Except.ok.inj hc))

/-- What one `SyncerV2.Run` invocation produces: its return value and
every engine call made during it. -/
structure RunOutcome where
  result : Except RunError SyncStats
  calls : List EngineCall
  deriving Repr, DecidableEq

/-- `SyncerV2.Run` (`syncer_v2.go:75-148`): parse the content (failure is
a ConfigError), build operations, pick a strategy, execute it — a
strategy-level error is only logged, never returned — compute
statistics, then generate the output file (failure is an
OperationError); otherwise return success. -/
def runV2 (cfg : SyncerConfig) (client : ClientBehavior) (decoded : Option (List GoStr))
    (cancelFrom : Option Nat) (cancelled : Bool) (sched : List PoolEvent)
    (writeOk : Bool) (wallDuration : Int) : RunOutcome :=
  match parseContentV2 decoded cfg.maxContent with
  | .error _ => { result := .error .configError, calls := [] }
  | .ok images =>
    let built := createSyncOperations cfg images
    let outcome := chooseExecute cfg client cancelFrom cancelled sched built.1
    let stats := calculateStatisticsV2 images.length built.2 outcome.results wallDuration
    match generateOutputV2 outcome.results writeOk with
    | .error _ => { result := .error .operationError, calls := outcome.calls }
    | .ok _ => { result := .ok stats, calls := outcome.calls }

/-- C2: for every engine-client behaviour, execution schedule and
cancellation pattern, `SyncerV2.Run` succeeds whenever content parsing
and output generation succeed: per-image pull/tag/push failures live
only inside the result list (they affect the statistics, never the
return value), and strategy-level errors are not escalated either. -/
theorem run_success_when_parse_and_output_succeed
    (cfg : SyncerConfig) (client : ClientBehavior) (decoded : Option (List GoStr))
    (cancelFrom : Option Nat) (cancelled : Bool) (sched : List PoolEvent)
    (writeOk : Bool) (wall : Int) (images : List GoStr)
    (hparse : parseContentV2 decoded cfg.maxContent = .ok images)
    (hout : generateOutputV2
        (chooseExecute cfg client cancelFrom cancelled sched
          (createSyncOperations cfg images).1).results writeOk = .ok ()) :
    (runV2 cfg client decoded cancelFrom cancelled sched writeOk wall).result
      = .ok (calculateStatisticsV2 images.length (createSyncOperations cfg images).2
          (chooseExecute cfg client cancelFrom cancelled sched
            (createSyncOperations cfg images).1).results wall) := by
  unfold runV2
  rw [hparse]
  dsimp only
  rw [hout]

/-- C2 (witness): a one-image batch against a client whose pull always
fails still yields a successful run (sequential strategy, output write
succeeds). -/
theorem run_success_witness :
    (runV2 ⟨[], "ns".toList, 10, 1, false, false⟩
        ⟨fun _ => false, fun _ _ => false, fun _ => false⟩
        (some ["nginx".toList]) none false [] true 5).result
      = .ok (calculateStatisticsV2 1
          (createSyncOperations ⟨[], "ns".toList, 10, 1, false, false⟩ ["nginx".toList]).2
          (chooseExecute ⟨[], "ns".toList, 10, 1, false, false⟩
            ⟨fun _ => false, fun _ _ => false, fun _ => false⟩ none false []
            (createSyncOperations ⟨[], "ns".toList, 10, 1, false, false⟩ ["nginx".toList]).1).results
          5) :=
  run_success_when_parse_and_output_succeed
    ⟨[], "ns".toList, 10, 1, false, false⟩
    ⟨fun _ => false, fun _ _ => false, fun _ => false⟩
    (some ["nginx".toList]) none false [] true 5 ["nginx".toList]
    (by decide) (by decide)

/-- C4: when the decoded content has N entries (N > 0) and `MaxContent`
is N-1, `Run` fails with a ConfigError and performs no engine call at
all: no operation is built or executed. -/
theorem run_rejects_oversized_batch
    (cfg : SyncerConfig) (client : ClientBehavior) (decoded : Option (List GoStr))
    (cancelFrom : Option Nat) (cancelled : Bool) (sched : List PoolEvent)
    (writeOk : Bool) (wall : Int) (images : List GoStr) (n : Nat)
    (hdec : decoded = some images) (hn : images.length = n) (hpos : 0 < n)
    (hmax : cfg.maxContent = n - 1) :
    runV2 cfg client decoded cancelFrom cancelled sched writeOk wall
      = { result := .error .configError, calls := [] } := by
  subst hdec
  have hgt : images.length > cfg.maxContent := by omega
  unfold runV2 parseContentV2
  dsimp only
  rw [if_pos hgt]

/-- C4 (witness): two images with `MaxContent = 1`. -/
theorem run_rejects_oversized_batch_witness :
    runV2 ⟨[], "ns".toList, 1, 1, false, false⟩
        ⟨fun _ => true, fun _ _ => true, fun _ => true⟩
        (some ["a".toList, "b".toList]) none false [] true 5
      = { result := .error .configError, calls := [] } :=
  run_rejects_oversized_batch ⟨[], "ns".toList, 1, 1, false, false⟩
    ⟨fun _ => true, fun _ _ => true, fun _ => true⟩
    (some ["a".toList, "b".toList]) none false [] true 5
    ["a".toList, "b".toList] 2 rfl rfl (by decide) rfl

theorem createSyncOperations_all_empty (cfg : SyncerConfig) :
    ∀ images : List GoStr, (∀ img ∈ images, img = []) →
      (createSyncOperations cfg images).1 = [] := by
  intro images
  induction images with
  | nil => intro _; rfl
  | cons img rest ih =>
    intro h
    have himg : img = [] := h img (by simp)
    have ih' := ih (fun i hi => h i (by simp [hi]))
    simp [createSyncOperations, himg, ih']

theorem poolRun_nil (client : ClientBehavior) (conc : Nat) (sched : List PoolEvent) :
    poolRun client conc [] sched
      = { pending := [], busy := [], results := [], calls := [] } := by
  unfold poolRun
  induction sched with
  | nil => rfl
  | cons e es ih =>
    have hstep : poolStep client conc
        { pending := [], busy := [], results := [], calls := [] } e
        = { pending := [], busy := [], results := [], calls := [] } := by
      cases e <;> simp [poolStep, lookupWorker]
    simpa [hstep] using ih

theorem chooseExecute_nil_results (cfg : SyncerConfig) (client : ClientBehavior)
    (cancelFrom : Option Nat) (cancelled : Bool) (sched : List PoolEvent) :
    (chooseExecute cfg client cancelFrom cancelled sched []).results = [] := by
  unfold chooseExecute
  split
  · simp [parallelExecute, poolRun_nil]
  · cases cancelFrom with
    | none => rfl
    | some k => cases k <;> rfl

/-- C10: when every decoded entry is the empty string (in particular for
an empty content array), every operation is skipped, the strategy
returns no results, and `Run` fails with the OperationError from
`generateOutput` ("no sync results available") — a batch with nothing to
sync is a run-level failure even though empty entries are individually
tolerated. -/
theorem run_fails_when_nothing_synced
    (cfg : SyncerConfig) (client : ClientBehavior) (decoded : Option (List GoStr))
    (cancelFrom : Option Nat) (cancelled : Bool) (sched : List PoolEvent)
    (writeOk : Bool) (wall : Int) (images : List GoStr)
    (hdec : decoded = some images) (hlen : images.length ≤ cfg.maxContent)
    (hempty : ∀ img ∈ images, img = []) :
    (runV2 cfg client decoded cancelFrom cancelled sched writeOk wall).result
      = .error .operationError := by
  subst hdec
  have hnot : ¬ images.length > cfg.maxContent := by omega
  have hops := createSyncOperations_all_empty cfg images hempty
  have hres : (chooseExecute cfg client cancelFrom cancelled sched
      (createSyncOperations cfg images).1).results = [] := by
    rw [hops]; exact chooseExecute_nil_results cfg client cancelFrom cancelled sched
  unfold runV2 parseContentV2
  dsimp only
  rw [if_neg hnot]
  dsimp only
  rw [hres]
  rfl

/-- C10 (witness): a batch of two empty entries with the parallel
strategy configured. -/
theorem run_fails_when_nothing_synced_witness :
    (runV2 ⟨[], "ns".toList, 10, 3, false, false⟩
        ⟨fun _ => true, fun _ _ => true, fun _ => true⟩
        (some [[], []]) none false [.take 0] true 5).result
      = .error .operationError :=
  run_fails_when_nothing_synced ⟨[], "ns".toList, 10, 3, false, false⟩
    ⟨fun _ => true, fun _ _ => true, fun _ => true⟩
    (some [[], []]) none false [.take 0] true 5 [[], []]
    rfl (by decide) (by decide)

/-- C9: the statistics aggregator leaves `AverageDuration` at its zero
value whenever no operation succeeded, and computes it as
`TotalDuration / Successful` (truncated int64 division) exactly when
`Successful > 0`; no division by zero ever occurs. -/
theorem statistics_average_guard (totalImages skipped : Nat)
    (results : List SyncResult) (dur : Int) :
    ((calculateStatisticsV2 totalImages skipped results dur).successful = 0 →
      (calculateStatisticsV2 totalImages skipped results dur).averageDuration = 0)
    ∧ (0 < (calculateStatisticsV2 totalImages skipped results dur).successful →
      (calculateStatisticsV2 totalImages skipped results dur).averageDuration
        = Int.tdiv (calculateStatisticsV2 totalImages skipped results dur).totalDuration
            (Int.ofNat (calculateStatisticsV2 totalImages skipped results dur).successful)) := by
  constructor
  · intro h
    simp only [calculateStatisticsV2] at h ⊢
    rw [if_neg (by omega)]
  · intro h
    simp only [calculateStatisticsV2] at h ⊢
    rw [if_pos h]

/-- C9 (witness): a single failed result gives zero successes and a zero
average duration. -/
theorem statistics_average_guard_witness :
    (calculateStatisticsV2 1 0
        [ { operation :=
              { source := refFromFullName [] "a:1".toList,
                target := refFromFullName [] "b:1".toList,
                validateDst := true, force := false, dryRun := false },
            success := false, error := some .pullFailed } ] 99).averageDuration = 0 :=
  (statistics_average_guard 1 0
    [ { operation :=
          { source := refFromFullName [] "a:1".toList,
            target := refFromFullName [] "b:1".toList,
            validateDst := true, force := false, dryRun := false },
        success := false, error := some .pullFailed } ] 99).1 (by decide)

/-- Outcome of the retry loop body in `Client.performWithRetry`
(`pkg/docker/client.go`): the operation succeeded, the context was
cancelled during a backoff wait, or the attempt budget was exhausted
with a last observed error. -/
inductive RetryResult
  | success
  | ctxCancelled
  | exhausted (last : Option GoStr)
  deriving Repr, DecidableEq

/-- The loop of `Client.performWithRetry`:
`for attempt := 0; attempt <= RetryCount; attempt++`.  `fuel` is the
number of remaining iterations (`RetryCount + 1` initially), `attempt`
the current attempt index, `last` the last observed error.  Before every
attempt but the first, the backoff wait runs and is aborted if the
context fires (`cancelW attempt`); then the engine operation runs
(`op attempt = none` means success, `some e` failure with error `e`).
The first component counts how many times the engine operation was
actually invoked. -/
def retryGo (cancelW : Nat → Bool) (op : Nat → Option GoStr) :
    Nat → Nat → Option GoStr → Nat × RetryResult
  | 0, _, last => (0, .exhausted last)
  | fuel + 1, attempt, _ =>
    if 0 < attempt ∧ cancelW attempt then (0, .ctxCancelled)
    else
      match op attempt with
      | none => (1, .success)
      | some e =>
        let r := retryGo cancelW op fuel (attempt + 1) (some e)
        (r.1 + 1, r.2)

/-- Return value of `Client.performWithRetry` (and thus of
`Client.PullImage` / `Client.PushImage`): success, a ContextError, or an
OperationError whose message reports `RetryCount + 1` attempts and which
wraps the last observed error. -/
inductive DockerOpResult
  | ok
  | contextError
  | operationError (attemptsReported : Nat) (last : Option GoStr)
  deriving Repr, DecidableEq

/-- `Client.performWithRetry`, paired with the number of engine
invocations it performs. -/
def performWithRetry (retryCount : Nat) (cancelW : Nat → Bool)
    (op : Nat → Option GoStr) : Nat × DockerOpResult :=
  let r := retryGo cancelW op (retryCount + 1) 0 none
  (r.1,
    match r.2 with
    | .success => .ok
    | .ctxCancelled => .contextError
    | .exhausted last => .operationError (retryCount + 1) last)

theorem retryGo_all_fail (cancelW : Nat → Bool) (op : Nat → Option GoStr)
    (hc : ∀ i, cancelW i = false) (hf : ∀ i, (op i).isSome) :
    ∀ (fuel attempt : Nat) (last : Option GoStr), 0 < fuel →
      retryGo cancelW op fuel attempt last
        = (fuel, .exhausted (op (attempt + fuel - 1))) := by
  intro fuel
  induction fuel with
  | zero => intro attempt last h; exact absurd h (by omega)
  | succ f ih =>
    intro attempt last _
    cases hop : op attempt with
    | none =>
      have := hf attempt
      rw [hop] at this
      simp at this
    | some e =>
      have hcond : ¬ (0 < attempt ∧ cancelW attempt = true) := by
        intro hcontra
        rw [hc attempt] at hcontra
        exact Bool.false_ne_true hcontra.2
      simp only [retryGo, hop, if_neg hcond]
      by_cases hf0 : f = 0
      · subst hf0
        have hidx : attempt + (0 + 1) - 1 = attempt := by omega
        simp [retryGo, hidx, hop]
      · have hrec := ih (attempt + 1) (some e) (by omega)
        rw [hrec]
        dsimp only
        have hidx : attempt + 1 + f - 1 = attempt + (f + 1) - 1 := by omega
        rw [hidx]

/-- C5: against an engine client whose operation always fails and a
context that never fires, one `performWithRetry` call (hence one
`PullImage` call) invokes the engine exactly `RetryCount + 1` times and
then returns an OperationError that reports `RetryCount + 1` attempts
and wraps the last observed error (the error of the final attempt);
no intermediate error escapes to the caller. -/
theorem pull_retry_exhaustion (retryCount : Nat) (cancelW : Nat → Bool)
    (op : Nat → Option GoStr)
    (hc : ∀ i, cancelW i = false) (hf : ∀ i, (op i).isSome) :
    performWithRetry retryCount cancelW op
      = (retryCount + 1, .operationError (retryCount + 1) (op retryCount)) := by
  unfold performWithRetry
  have h := retryGo_all_fail cancelW op hc hf (retryCount + 1) 0 none (by omega)
  rw [h]
  have hidx : 0 + (retryCount + 1) - 1 = retryCount := by omega
  rw [hidx]

/-- C5 (witness): three pull attempts for `RetryCount = 2` against an
always-failing client. -/
theorem pull_retry_exhaustion_witness :
    performWithRetry 2 (fun _ => false) (fun _ => some "x".toList)
      = (3, .operationError 3 (some "x".toList)) :=
  pull_retry_exhaustion 2 (fun _ => false) (fun _ => some "x".toList)
    (fun _ => rfl) (fun _ => rfl)

/-- The backoff computation of `Client.performWithRetry`
(`pkg/docker/client.go`, the G115 overflow fix): for `attempt > 30` the
delay is `2^30 * RetryDelay`; otherwise `(1 << attempt) * RetryDelay / 2`
with Go's truncated integer division. -/
def backoffDelay (retryDelay : Int) (attempt : Nat) : Int :=
  if attempt > 30 then 2 ^ 30 * retryDelay
  else Int.tdiv (2 ^ attempt * retryDelay) 2

/-- C6: for every retry attempt (waits happen only from attempt 1 on)
the computed backoff delay equals the configured base delay scaled by
`2 ^ min(attempt - 1, 30)`: the effective exponent — not the resulting
delay value — is capped at 30, and consequently the delay never exceeds
`2^30 * RetryDelay` no matter how large the attempt count grows (no
overflow from growing attempt counts). -/
theorem backoff_exponent_capped (retryDelay : Int) (attempt : Nat) (h : 1 ≤ attempt) :
    backoffDelay retryDelay attempt = 2 ^ (min (attempt - 1) 30) * retryDelay
    ∧ (0 ≤ retryDelay →
        backoffDelay retryDelay attempt ≤ 2 ^ 30 * retryDelay) := by
  have hmain : backoffDelay retryDelay attempt
      = 2 ^ (min (attempt - 1) 30) * retryDelay := by
    unfold backoffDelay
    by_cases h30 : attempt > 30
    · rw [if_pos h30]
      have hm : min (attempt - 1) 30 = 30 := by omega
      rw [hm]
    · rw [if_neg h30]
      have hm : min (attempt - 1) 30 = attempt - 1 := by omega
      rw [hm]
      have hpow : (2 : Int) ^ attempt = 2 * 2 ^ (attempt - 1) := by
        have ha : attempt - 1 + 1 = attempt := by omega
        calc (2 : Int) ^ attempt = 2 ^ (attempt - 1 + 1) := by rw [ha]
          _ = 2 ^ (attempt - 1) * 2 := pow_succ 2 (attempt - 1)
          _ = 2 * 2 ^ (attempt - 1) := by ring
      rw [hpow, mul_assoc]
      exact Int.mul_tdiv_cancel_left _ (by decide)
  refine ⟨hmain, fun hd => ?_⟩
  rw [hmain]
  have hple : (2 : Int) ^ (min (attempt - 1) 30) ≤ 2 ^ 30 :=
    pow_le_pow_right₀ (by decide) (by omega)
  exact mul_le_mul_of_nonneg_right hple hd

/-- C6 (witness): at attempt 40 with base delay 2, the exponent is
capped at 30 and the delay is bounded by the cap value. -/
theorem backoff_exponent_capped_witness :
    backoffDelay 2 40 = 2 ^ (min (40 - 1) 30) * 2 ∧ backoffDelay 2 40 ≤ 2 ^ 30 * 2 :=
  ⟨(backoff_exponent_capped 2 40 (by omega)).1,
   (backoff_exponent_capped 2 40 (by omega)).2 (by omega)⟩

end HubSync
